import Mathlib

/-
  Verification of the SOL/USDT EMA-crossover signal engine
  (shallow embedding of src/streamlit_app.py).

  Prices are embedded as exact rationals (ℚ); timestamps as integers.
  Nullable pandas values (NaN) are embedded as Option ℚ.
-/

/- ================= CONFIG ================= -/

def EMA_FAST : ℕ := 9

def EMA_SLOW : ℕ := 21

def ATR_PERIOD : ℕ := 14

/- ================= DATA MODEL ================= -/

/-- One OHLC candle row of the fetched dataframe. -/
structure Candle where
  time : Int
  openP : ℚ
  high : ℚ
  low : ℚ
  close : ℚ
  volume : ℚ
deriving DecidableEq, Repr

/-- A dataframe row after the indicator columns are added:
`ema_fast`, `ema_slow` are always defined (pandas `ewm` with default
`adjust=True`, `min_periods=0`); `atr` is nullable (rolling warm-up). -/
structure Enriched where
  time : Int
  close : ℚ
  ema_fast : ℚ
  ema_slow : ℚ
  atr : Option ℚ
deriving DecidableEq, Repr

/-- One entry of `st.session_state.signals` (a dict in the source). -/
structure Signal where
  type : String
  time : Int
  price : ℚ
  tp : ℚ
  sl : ℚ
  margin : String
deriving DecidableEq, Repr

/- ================= INDICATORS ================= -/

/-- pandas `ewm(span).mean()` with the default `adjust=True` convention:
running weighted numerator and denominator,
`num_t = (1-α)·num_(t-1) + x_t`, `den_t = (1-α)·den_(t-1) + 1`,
output `num_t / den_t`. -/
def ewmAux (a : ℚ) : ℚ → ℚ → List ℚ → List ℚ
  | _, _, [] => []
  | num, den, x :: xs =>
      ((1 - a) * num + x) / ((1 - a) * den + 1) ::
        ewmAux a ((1 - a) * num + x) ((1 - a) * den + 1) xs

/-- `series.ewm(span=span).mean()` with α = 2/(span+1). -/
def ewmMean (span : ℕ) (xs : List ℚ) : List ℚ :=
  ewmAux (2 / ((span : ℚ) + 1)) 0 0 xs

/-- pandas skipna max of two nullable cells (`DataFrame.max(axis=1)` pairwise). -/
def omax : Option ℚ → Option ℚ → Option ℚ
  | none, y => y
  | some a, none => some a
  | some a, some b => some (max a b)

/-- One row of `pd.concat([tr1, tr2, tr3], axis=1).max(axis=1)`:
the skipna maximum of the three true-range candidates. -/
def rowMax3 (t1 t2 t3 : Option ℚ) : Option ℚ :=
  omax t1 (omax t2 t3)

/-- The true-range cell for candle `c` with optional previous candle `pc`
(`pc = none` on row 0, where `close.shift()` is NaN):
`tr1 = high - low` (always defined), `tr2 = |high - prev_close|`,
`tr3 = |low - prev_close|` (defined only when a previous row exists). -/
def trcell (pc : Option Candle) (c : Candle) : Option ℚ :=
  rowMax3 (some (c.high - c.low))
    (pc.map (fun p => |c.high - p.close|))
    (pc.map (fun p => |c.low - p.close|))

/-- True-range series: row 0 is computed with `pc = none`. -/
def trueRangeFrom : Option Candle → List Candle → List (Option ℚ)
  | _, [] => []
  | pc, c :: cs => trcell pc c :: trueRangeFrom (some c) cs

/-- `tr` as computed in the source's `atr` function. -/
def trueRange (cs : List Candle) : List (Option ℚ) :=
  trueRangeFrom none cs

/-- pandas `rolling(w).mean()` with default `min_periods = w`:
at index `i` the window is the (at most `w`) values ending at `i`;
the mean is defined only when the window holds `w` non-null values. -/
def rollingMean (w : ℕ) (xs : List (Option ℚ)) : List (Option ℚ) :=
  (List.range xs.length).map (fun i =>
    if w ≤ (((xs.take (i + 1)).drop (i + 1 - w)).filterMap id).length then
      some ((((xs.take (i + 1)).drop (i + 1 - w)).filterMap id).sum / (w : ℚ))
    else none)

/-- `atr(df, period)` from the source: rolling mean of the true range. -/
def atr (period : ℕ) (cs : List Candle) : List (Option ℚ) :=
  rollingMean period (trueRange cs)

/-- Adds the three indicator columns to the candle series
(`df["ema_fast"]`, `df["ema_slow"]`, `df["atr"]`). -/
def enrich (cs : List Candle) : List Enriched :=
  (cs.zip ((ewmMean EMA_FAST (cs.map Candle.close)).zip
    ((ewmMean EMA_SLOW (cs.map Candle.close)).zip (atr ATR_PERIOD cs)))).map
    (fun p =>
      { time := p.1.time, close := p.1.close, ema_fast := p.2.1,
        ema_slow := p.2.2.1, atr := p.2.2.2 })

/- ================= SIGNAL LOGIC ================= -/

/-- `atr_pct = (df["atr"].iloc[-1] / last["close"]) * 100`. -/
def atr_pct (a c : ℚ) : ℚ := a / c * 100

/-- The leverage-hint ladder (`margin` in the source), first match wins. -/
def margin_of (x : ℚ) : String :=
  if x < 2 then "20x"
  else if x < 3 then "10x"
  else if x < 5 then "5x"
  else "3x"

/-- `not st.session_state.signals or st.session_state.signals[-1]["time"] != t`. -/
def dedupOK (sigs : List Signal) (t : Int) : Bool :=
  match sigs.getLast? with
  | none => true
  | some s => s.time != t

/-- The BUY signal dict appended by the source. -/
def mkBuy (last : Enriched) (a : ℚ) (m : String) : Signal :=
  { type := "BUY", time := last.time, price := last.close,
    tp := last.close + 2 * a, sl := last.close - a, margin := m }

/-- The SELL signal dict appended by the source. -/
def mkSell (last : Enriched) (a : ℚ) (m : String) : Signal :=
  { type := "SELL", time := last.time, price := last.close,
    tp := last.close - 2 * a, sl := last.close + a, margin := m }

/-- One detection pass over the enriched dataframe
(the `if len(df) > 2 and not np.isnan(df["atr"].iloc[-1])` block):
guard, crossing test (BUY first, `elif` SELL), per-branch dedup check,
append of at most one signal. -/
def signalStep (df : List Enriched) (sigs : List Signal) : List Signal :=
  if 2 < df.length then
    match df.get? (df.length - 1) with
    | none => sigs
    | some last =>
      match last.atr with
      | none => sigs
      | some a =>
        match df.get? (df.length - 2) with
        | none => sigs
        | some prev =>
          if prev.ema_fast < prev.ema_slow ∧ last.ema_fast > last.ema_slow then
            if dedupOK sigs last.time then
              sigs ++ [mkBuy last a (margin_of (atr_pct a last.close))]
            else sigs
          else if prev.ema_fast > prev.ema_slow ∧ last.ema_fast < last.ema_slow then
            if dedupOK sigs last.time then
              sigs ++ [mkSell last a (margin_of (atr_pct a last.close))]
            else sigs
          else sigs
  else sigs

/-- The signal a pass would emit, before the dedup check
(BUY has precedence by evaluation order). -/
def candidate (df : List Enriched) : Option Signal :=
  if 2 < df.length then
    match df.get? (df.length - 1) with
    | none => none
    | some last =>
      match last.atr with
      | none => none
      | some a =>
        match df.get? (df.length - 2) with
        | none => none
        | some prev =>
          if prev.ema_fast < prev.ema_slow ∧ last.ema_fast > last.ema_slow then
            some (mkBuy last a (margin_of (atr_pct a last.close)))
          else if prev.ema_fast > prev.ema_slow ∧ last.ema_fast < last.ema_slow then
            some (mkSell last a (margin_of (atr_pct a last.close)))
          else none
  else none

/- ================= SESSION OPERATIONS ================= -/

/-- The two operations that mutate `st.session_state.signals`:
a detection pass over some enriched dataframe, and the Clear Signals button. -/
inductive Op where
  | pass (df : List Enriched)
  | clear
deriving DecidableEq

def applyOp (sigs : List Signal) : Op → List Signal
  | Op.pass df => signalStep df sigs
  | Op.clear => []

def runOps (sigs : List Signal) (ops : List Op) : List Signal :=
  ops.foldl applyOp sigs

/- ================= FETCH / REFRESH CYCLE ================= -/

/-- Outcome of `fetch_data()`: a candle dataframe, or the exception raised
after all mirrors fail. -/
inductive FetchResult where
  | ok (cs : List Candle)
  | err (msg : String)
deriving DecidableEq

/-- The mirror loop of `fetch_data`: each element is one `requests.get`
attempt; the first success is returned, a failure is remembered as
`last_error`, and after the list is exhausted the function raises
`RuntimeError("Binance blocked all endpoints: ...")`. -/
def fetchFromMirrors : List (Except String (List Candle)) → Option String → FetchResult
  | [], le => FetchResult.err ("Binance blocked all endpoints: " ++ le.getD "None")
  | Except.ok cs :: _, _ => FetchResult.ok cs
  | Except.error e :: rest, _ => fetchFromMirrors rest (some e)

/-- The main block: `try: df = fetch_data() except: st.error(e); st.stop()`.
On failure, no indicator column is computed and no signal pass runs. -/
def refresh (fr : FetchResult) (sigs : List Signal) :
    Except String (List Enriched × List Signal) :=
  match fr with
  | FetchResult.err e => Except.error e
  | FetchResult.ok cs => Except.ok (enrich cs, signalStep (enrich cs) sigs)

/-- The signal log after a refresh cycle: `st.stop()` halts the script but
`st.session_state.signals` survives unchanged. -/
def refreshSignals (fr : FetchResult) (sigs : List Signal) : List Signal :=
  match refresh fr sigs with
  | Except.error _ => sigs
  | Except.ok p => p.2

/- ================= DISPLAY VIEWS ================= -/

/-- `st.session_state.signals[-10:]` (the chart overlay loop). -/
def chartSignals (sigs : List Signal) : List Signal :=
  sigs.drop (sigs.length - 10)

/-- `pd.DataFrame(st.session_state.signals)[::-1]` (the signal table). -/
def tableRows (sigs : List Signal) : List Signal :=
  sigs.reverse

/-- Modelled from the spec: `tail(n)` returns the last n entries of the
signal log in reverse chronological order (newest first). No such
operation exists in the source; this is the comparator for the display
views the source actually uses. -/
def tailSpec (n : ℕ) (sigs : List Signal) : List Signal :=
  (sigs.drop (sigs.length - n)).reverse

/- ================= GUARDED DIVISION ================= -/

/-- Division with an explicit zero-divisor error branch. -/
def safeDiv (a b : ℚ) : Option ℚ :=
  if b = 0 then none else some (a / b)

/-- `atr_pct` computed through the guarded division. -/
def atr_pctChecked (a c : ℚ) : Option ℚ :=
  (safeDiv a c).map (fun q => q * 100)

/- ================= CONCRETE INPUTS ================= -/

/-- A candle with the given time, high, low and close (other fields inert). -/
def mkC (t : Int) (h l c : ℚ) : Candle :=
  { time := t, openP := c, high := h, low := l, close := c, volume := 0 }

/-- Fourteen identical flat candles: high 2, low 1, close 1. -/
def cs14 : List Candle := List.replicate 14 (mkC 0 2 1 1)

/-- A two-candle series for true-range checks. -/
def cs2 : List Candle := [mkC 0 5 1 2, mkC 1 9 4 6]

def e0 : Enriched :=
  { time := 0, close := 10, ema_fast := 1, ema_slow := 1, atr := none }

def ePrevUp : Enriched :=
  { time := 0, close := 10, ema_fast := 1, ema_slow := 2, atr := some 1 }

def eLast1 : Enriched :=
  { time := 1, close := 10, ema_fast := 2, ema_slow := 1, atr := some 1 }

def eLast2 : Enriched :=
  { time := 2, close := 10, ema_fast := 2, ema_slow := 1, atr := some 1 }

/-- An enriched series whose last pair is a strict upward crossing at time 1. -/
def dfA : List Enriched := [e0, ePrevUp, eLast1]

/-- The same crossing, but the last candle carries time 2. -/
def dfB : List Enriched := [e0, ePrevUp, eLast2]

/-- Pass on `dfA`, pass on `dfB`, pass on `dfA` again: the third pass is
deduplicated only against the entry the second pass appended. -/
def opsC2 : List Op := [Op.pass dfA, Op.pass dfB, Op.pass dfA]

def sigA : Signal :=
  { type := "BUY", time := 1, price := 1, tp := 1, sl := 1, margin := "3x" }

def sigB : Signal :=
  { type := "SELL", time := 2, price := 1, tp := 1, sl := 1, margin := "3x" }

/- ================= HELPER LEMMAS: INDICATORS ================= -/

lemma trueRangeFrom_length (pc : Option Candle) (cs : List Candle) :
    (trueRangeFrom pc cs).length = cs.length := by
  induction cs generalizing pc with
  | nil => rfl
  | cons c tl ih => simp [trueRangeFrom, ih]

lemma trueRange_length (cs : List Candle) : (trueRange cs).length = cs.length :=
  trueRangeFrom_length none cs

lemma trcell_isSome (pc : Option Candle) (c : Candle) : ∃ b, trcell pc c = some b := by
  unfold trcell rowMax3
  cases hpc : pc.map (fun p => |c.high - p.close|) <;>
    cases hpc' : pc.map (fun p => |c.low - p.close|) <;>
      exact ⟨_, rfl⟩

lemma trueRangeFrom_isSome (pc : Option Candle) (cs : List Candle) :
    ∀ x ∈ trueRangeFrom pc cs, ∃ b, x = some b := by
  induction cs generalizing pc with
  | nil => simp [trueRangeFrom]
  | cons c tl ih =>
    intro x hx
    rcases List.mem_cons.1 hx with h | h
    · subst h; exact trcell_isSome pc c
    · exact ih (some c) x h

lemma trueRangeFrom_get?_succ (cs : List Candle) :
    ∀ (pc : Option Candle) (i : ℕ) (p c : Candle),
      cs.get? i = some p → cs.get? (i + 1) = some c →
      (trueRangeFrom pc cs).get? (i + 1) = some (trcell (some p) c) := by
  induction cs with
  | nil => intro pc i p c hp _; simp at hp
  | cons a tl ih =>
    intro pc i p c hp hc
    cases i with
    | zero =>
      simp only [List.get?] at hp hc
      obtain rfl : a = p := by injection hp
      cases tl with
      | nil => simp at hc
      | cons b tl2 =>
        simp only [List.get?] at hc
        obtain rfl : b = c := by injection hc
        rfl
    | succ j =>
      simp only [List.get?] at hp hc
      exact ih (some a) j p c hp hc

lemma filterMap_id_length (l : List (Option ℚ)) (h : ∀ x ∈ l, ∃ b, x = some b) :
    (l.filterMap id).length = l.length := by
  induction l with
  | nil => rfl
  | cons x tl ih =>
    obtain ⟨b, rfl⟩ := h x (List.mem_cons_self _ _)
    simp [List.filterMap_cons, ih (fun y hy => h y (List.mem_cons_of_mem _ hy))]

lemma rollingMean_get? (w : ℕ) (xs : List (Option ℚ)) (i : ℕ) (h : i < xs.length) :
    (rollingMean w xs).get? i =
      some (if w ≤ (((xs.take (i + 1)).drop (i + 1 - w)).filterMap id).length then
        some ((((xs.take (i + 1)).drop (i + 1 - w)).filterMap id).sum / (w : ℚ))
      else none) := by
  unfold rollingMean
  rw [List.get?_map, List.get?_range h]
  rfl

lemma atr_warmup (p : ℕ) (cs : List Candle) (i : ℕ) (hi : i < cs.length)
    (hw : i + 1 < p) :
    (atr p cs).get? i = some none := by
  unfold atr
  rw [rollingMean_get? p _ i (by rw [trueRange_length]; exact hi)]
  have h1 : ((((trueRange cs).take (i + 1)).drop (i + 1 - p)).filterMap id).length
      ≤ i + 1 := by
    calc ((((trueRange cs).take (i + 1)).drop (i + 1 - p)).filterMap id).length
        ≤ (((trueRange cs).take (i + 1)).drop (i + 1 - p)).length :=
          List.length_filterMap_le _ _
      _ ≤ ((trueRange cs).take (i + 1)).length := by
          rw [List.length_drop]; omega
      _ ≤ i + 1 := by rw [List.length_take]; omega
  rw [if_neg (by omega)]

lemma atr_length (p : ℕ) (cs : List Candle) : (atr p cs).length = cs.length := by
  unfold atr rollingMean
  rw [List.length_map, List.length_range, trueRange_length]

/- ================= C3 / C4 ================= -/

/-- C3 (counterexample): on fourteen flat candles (length 14 < 15), the ATR at
index 13 is already defined (equal to 1), because pandas' skipna row-max gives
a defined True Range `high - low` at index 0 — refuting both "null at indices
0..13" and "all null for L < ATR_PERIOD + 1". -/
theorem c3_counterexample :
    (atr ATR_PERIOD cs14).get? 13 = some (some 1) ∧
    (atr ATR_PERIOD cs14).get? 13 ≠ some none ∧
    cs14.length < ATR_PERIOD + 1 := by
  have h : (atr ATR_PERIOD cs14).get? 13 = some (some 1) := by
    norm_num [atr, rollingMean, trueRange, trueRangeFrom, trcell, rowMax3, omax, cs14, mkC,
      List.replicate, List.range_succ, ATR_PERIOD, List.filterMap_cons, List.sum_cons]
  exact ⟨h, by rw [h]; simp, by decide⟩

/-- C3 (amended): the ATR sequence is null at indices 0 through
`ATR_PERIOD - 2 = 12` inclusive; for every series of length `L < ATR_PERIOD = 14`
every `atr[i]` is null; and the first non-null ATR position is index
`ATR_PERIOD - 1 = 13` (defined whenever the series has at least 14 candles). -/
theorem c3_atr_warmup_amended :
    ∀ (cs : List Candle),
      (∀ i, i < cs.length → i + 1 < ATR_PERIOD →
        (atr ATR_PERIOD cs).get? i = some none) ∧
      (cs.length < ATR_PERIOD → ∀ i, i < cs.length →
        (atr ATR_PERIOD cs).get? i = some none) ∧
      (ATR_PERIOD ≤ cs.length →
        ∃ q, (atr ATR_PERIOD cs).get? (ATR_PERIOD - 1) = some (some q)) := by
  intro cs
  refine ⟨fun i hi hw => atr_warmup _ _ _ hi hw,
    fun hlen i hi =>
      atr_warmup _ _ _ hi (Nat.lt_of_le_of_lt (Nat.succ_le_of_lt hi) hlen),
    fun hlen => ?_⟩
  have hA : ATR_PERIOD = 14 := rfl
  have h13 : ATR_PERIOD - 1 < (trueRange cs).length := by
    rw [trueRange_length]; omega
  unfold atr
  rw [rollingMean_get? ATR_PERIOD _ (ATR_PERIOD - 1) h13]
  have hsub : ∀ x ∈ (((trueRange cs).take (ATR_PERIOD - 1 + 1)).drop
      (ATR_PERIOD - 1 + 1 - ATR_PERIOD)), ∃ b, x = some b := fun x hx =>
    trueRangeFrom_isSome none cs x (List.take_subset _ _ (List.drop_subset _ _ hx))
  have hwl : ((((trueRange cs).take (ATR_PERIOD - 1 + 1)).drop
      (ATR_PERIOD - 1 + 1 - ATR_PERIOD)).filterMap id).length = ATR_PERIOD := by
    rw [filterMap_id_length _ hsub, List.length_drop, List.length_take,
      trueRange_length]
    omega
  rw [if_pos (le_of_eq hwl.symm)]
  exact ⟨_, rfl⟩

/-- C3 (witness): concrete instances of the amended warm-up facts on the
fourteen-candle flat series and its thirteen-candle truncation. -/
theorem c3_witness :
    (atr ATR_PERIOD cs14).get? 0 = some none ∧
    (atr ATR_PERIOD (cs14.take 13)).get? 0 = some none ∧
    (∃ q, (atr ATR_PERIOD cs14).get? (ATR_PERIOD - 1) = some (some q)) :=
  ⟨(c3_atr_warmup_amended cs14).1 0 (by simp [cs14]) (by norm_num [ATR_PERIOD]),
   (c3_atr_warmup_amended (cs14.take 13)).2.1 (by simp [cs14, ATR_PERIOD])
     0 (by simp [cs14]),
   (c3_atr_warmup_amended cs14).2.2 (by simp [cs14, ATR_PERIOD])⟩

/-- C4 (counterexample): the True Range used by the ATR computation is defined
at index 0 — it equals `high_0 - low_0 = 4` on `cs2` — refuting "has no defined
value (null) at index 0" (pandas' skipna max ignores the two NaN candidates). -/
theorem c4_counterexample :
    (trueRange cs2).get? 0 = some (some 4) ∧ (trueRange cs2).get? 0 ≠ some none := by
  have h : (trueRange cs2).get? 0 = some (some 4) := by
    norm_num [trueRange, trueRangeFrom, trcell, rowMax3, omax, cs2, mkC]
  exact ⟨h, by rw [h]; simp⟩

/-- C4 (amended): at each index `i ≥ 1` the True Range equals
`max(high_i - low_i, |high_i - close_(i-1)|, |low_i - close_(i-1)|)`; at
index 0 it is not null but equals `high_0 - low_0` (the only defined
candidate under pandas' skipna row maximum). -/
theorem c4_true_range_amended :
    ∀ (cs : List Candle),
      (∀ i p c, cs.get? i = some p → cs.get? (i + 1) = some c →
        (trueRange cs).get? (i + 1) =
          some (some (max (c.high - c.low)
            (max |c.high - p.close| |c.low - p.close|)))) ∧
      (∀ c tl, cs = c :: tl →
        (trueRange cs).get? 0 = some (some (c.high - c.low))) := by
  intro cs
  constructor
  · intro i p c hp hc
    rw [trueRange, trueRangeFrom_get?_succ cs none i p c hp hc]
    simp [trcell, rowMax3, omax]
  · rintro c tl rfl
    simp [trueRange, trueRangeFrom, trcell, rowMax3, omax]

/-- C4 (witness): both amended clauses instantiated on the concrete
two-candle series `cs2`. -/
theorem c4_witness :
    (trueRange cs2).get? 1 =
      some (some (max ((mkC 1 9 4 6).high - (mkC 1 9 4 6).low)
        (max |(mkC 1 9 4 6).high - (mkC 0 5 1 2).close|
          |(mkC 1 9 4 6).low - (mkC 0 5 1 2).close|))) ∧
    (trueRange cs2).get? 0 = some (some ((mkC 0 5 1 2).high - (mkC 0 5 1 2).low)) :=
  ⟨(c4_true_range_amended cs2).1 0 (mkC 0 5 1 2) (mkC 1 9 4 6) rfl rfl,
   (c4_true_range_amended cs2).2 (mkC 0 5 1 2) [mkC 1 9 4 6] rfl⟩

/- ================= C5 ================= -/

/-- C5 (confirmed): `atr_pct = 100·atr/close`, and the leverage hint follows
the ordered ladder `<2 → 20x`, `<3 → 10x`, `<5 → 5x`, else `3x` with first
match winning; in particular `atr_pct = 2` falls to the 10x bucket, and the
literal inputs 1.5, 2.5, 4 and 6 map to 20x, 10x, 5x and 3x. -/
theorem c5_leverage_thresholds :
    (∀ x : ℚ,
      (x < 2 → margin_of x = "20x") ∧
      (¬ x < 2 → x < 3 → margin_of x = "10x") ∧
      (¬ x < 3 → x < 5 → margin_of x = "5x") ∧
      (¬ x < 5 → margin_of x = "3x")) ∧
    (∀ a c : ℚ, atr_pct a c = 100 * a / c) ∧
    margin_of 2 = "10x" ∧ margin_of (3 / 2) = "20x" ∧ margin_of (5 / 2) = "10x" ∧
    margin_of 4 = "5x" ∧ margin_of 6 = "3x" := by
  refine ⟨fun x => ⟨fun h1 => ?_, fun h1 h2 => ?_, fun h2 h3 => ?_, fun h3 => ?_⟩,
    fun a c => by rw [atr_pct]; ring, ?_, ?_, ?_, ?_, ?_⟩
  · rw [margin_of, if_pos h1]
  · rw [margin_of, if_neg h1, if_pos h2]
  · rw [margin_of, if_neg (by intro h; exact h2 (by linarith)), if_neg h2, if_pos h3]
  · rw [margin_of, if_neg (by intro h; exact h3 (by linarith)),
      if_neg (by intro h; exact h3 (by linarith)), if_neg h3]
  all_goals norm_num [margin_of]

/-- C5 (witness): the ladder applied at 1, 5/2, 7/2 and 7, one input per
bucket, discharging each guard hypothesis. -/
theorem c5_witness :
    margin_of 1 = "20x" ∧ margin_of (5 / 2) = "10x" ∧
    margin_of (7 / 2) = "5x" ∧ margin_of 7 = "3x" :=
  ⟨(c5_leverage_thresholds.1 1).1 (by norm_num),
   (c5_leverage_thresholds.1 (5 / 2)).2.1 (by norm_num) (by norm_num),
   (c5_leverage_thresholds.1 (7 / 2)).2.2.1 (by norm_num) (by norm_num),
   (c5_leverage_thresholds.1 7).2.2.2 (by norm_num)⟩

/- ================= C8 ================= -/

lemma ewmAux_const (a : ℚ) (h : 0 ≤ 1 - a) :
    ∀ (n : ℕ) (c num den : ℚ), num = c * den → 0 ≤ den →
      ewmAux a num den (List.replicate n c) = List.replicate n c := by
  intro n
  induction n with
  | zero => intro c num den _ _; rfl
  | succ k ih =>
    intro c num den hnum hden
    have hpos : (0 : ℚ) < (1 - a) * den + 1 := by nlinarith [mul_nonneg h hden]
    have hnum' : (1 - a) * num + c = c * ((1 - a) * den + 1) := by rw [hnum]; ring
    rw [List.replicate_succ]
    simp only [ewmAux]
    rw [hnum', mul_div_assoc, div_self hpos.ne', mul_one]
    rw [ih c _ _ rfl hpos.le]

/-- C8 (confirmed): for a constant close series of any length, both the fast
and the slow EMA columns equal the constant at every index (pandas
`ewm(adjust=True)` is exact on constants). -/
theorem c8_ema_constant :
    ∀ (n : ℕ) (c : ℚ),
      ewmMean EMA_FAST (List.replicate n c) = List.replicate n c ∧
      ewmMean EMA_SLOW (List.replicate n c) = List.replicate n c := by
  intro n c
  constructor
  · exact ewmAux_const _ (by norm_num [EMA_FAST]) n c 0 0 (by ring) le_rfl
  · exact ewmAux_const _ (by norm_num [EMA_SLOW]) n c 0 0 (by ring) le_rfl

/- ================= C9 ================= -/

/-- C9 (counterexample): with two distinct logged signals, the chart view
`signals[-10:]` is in chronological order, not the reverse order the spec's
`tail(n)` prescribes. -/
theorem c9_counterexample : chartSignals [sigA, sigB] ≠ tailSpec 10 [sigA, sigB] := by
  decide

/-- C9 (amended): the chart view returns the last 10 entries in chronological
order (the reverse of `tail(10)`); the table view returns all entries in
reverse chronological order, which coincides with `tail(n)` exactly when the
log has at most `n` entries; both are pure functions of the log. -/
theorem c9_display_views_amended :
    ∀ (sigs : List Signal),
      chartSignals sigs = (tailSpec 10 sigs).reverse ∧
      tableRows sigs = tailSpec sigs.length sigs ∧
      (sigs.length ≤ 10 → tableRows sigs = tailSpec 10 sigs) := by
  intro sigs
  refine ⟨?_, ?_, ?_⟩
  · simp [chartSignals, tailSpec]
  · simp [tableRows, tailSpec]
  · intro h
    simp [tableRows, tailSpec, Nat.sub_eq_zero_of_le h]

/-- C9 (witness): the table view of a one-entry log equals `tail(10)`. -/
theorem c9_witness : tableRows [sigA] = tailSpec 10 [sigA] :=
  (c9_display_views_amended [sigA]).2.2 (by simp)

/- ================= C10 ================= -/

/-- C10 (confirmed): under the evaluation guard (length > 2, defined last ATR)
and a non-zero last close, the guarded division defining `atr_pct` never takes
its error branch and agrees with the source's unguarded computation. -/
theorem c10_atr_pct_division_guard :
    ∀ (df : List Enriched) (last : Enriched) (a : ℚ),
      2 < df.length → df.get? (df.length - 1) = some last → last.atr = some a →
      last.close ≠ 0 →
      atr_pctChecked a last.close = some (atr_pct a last.close) := by
  intro df last a _ _ _ hc
  simp [atr_pctChecked, safeDiv, hc, atr_pct]

/-- C10 (witness): the guard discharged on the concrete crossing series `dfA`
(last close 10). -/
theorem c10_witness : atr_pctChecked 1 eLast1.close = some (atr_pct 1 eLast1.close) :=
  c10_atr_pct_division_guard dfA eLast1 1 (by decide) rfl rfl (by decide)

/- ================= C1 ================= -/

/-- C1 (confirmed): under the evaluation guard and a passing dedup check, a
strict upward EMA crossing appends exactly the BUY signal with
`price = last.close`, `tp = close + 2·atr`, `sl = close − atr`; a strict
downward crossing appends the mirror SELL signal with `tp = close − 2·atr`,
`sl = close + atr`; and with neither strict crossing the log is unchanged. -/
theorem c1_crossover_signal (df : List Enriched) (sigs : List Signal)
    (prev last : Enriched) (a : ℚ)
    (hlen : 2 < df.length)
    (hlast : df.get? (df.length - 1) = some last)
    (hprev : df.get? (df.length - 2) = some prev)
    (hatr : last.atr = some a)
    (hded : dedupOK sigs last.time = true) :
    (prev.ema_fast < prev.ema_slow → last.ema_fast > last.ema_slow →
      signalStep df sigs = sigs ++
        [{ type := "BUY", time := last.time, price := last.close,
           tp := last.close + 2 * a, sl := last.close - a,
           margin := margin_of (atr_pct a last.close) }]) ∧
    (prev.ema_fast > prev.ema_slow → last.ema_fast < last.ema_slow →
      signalStep df sigs = sigs ++
        [{ type := "SELL", time := last.time, price := last.close,
           tp := last.close - 2 * a, sl := last.close + a,
           margin := margin_of (atr_pct a last.close) }]) ∧
    (¬ (prev.ema_fast < prev.ema_slow ∧ last.ema_fast > last.ema_slow) →
     ¬ (prev.ema_fast > prev.ema_slow ∧ last.ema_fast < last.ema_slow) →
      signalStep df sigs = sigs) := by
  unfold signalStep
  simp only [if_pos hlen, hlast, hatr, hprev]
  refine ⟨fun h1 h2 => ?_, fun h1 h2 => ?_, fun hb hs => ?_⟩
  · rw [if_pos ⟨h1, h2⟩, if_pos hded]
    rfl
  · rw [if_neg (fun hc => absurd hc.1 (not_lt_of_gt h1)), if_pos ⟨h1, h2⟩,
      if_pos hded]
    rfl
  · rw [if_neg hb, if_neg hs]

/-- C1 (witness): on the concrete crossing series `dfA` with an empty log,
the pass appends exactly the expected BUY signal. -/
theorem c1_witness :
    signalStep dfA [] = [] ++
      [{ type := "BUY", time := eLast1.time, price := eLast1.close,
         tp := eLast1.close + 2 * 1, sl := eLast1.close - 1,
         margin := margin_of (atr_pct 1 eLast1.close) }] :=
  (c1_crossover_signal dfA [] ePrevUp eLast1 1 (by decide) rfl rfl rfl rfl).1
    (by decide) (by decide)

/- ================= C6 ================= -/

/-- C6 (confirmed): every single detection pass either leaves the signal log
unchanged or appends exactly one signal at the end — in particular the
existing entries are kept, in order, as a prefix, so historical signals are
never modified, reordered or removed by a pass. -/
theorem c6_frame_at_most_one_append :
    ∀ (df : List Enriched) (sigs : List Signal),
      (signalStep df sigs = sigs ∨ ∃ s, signalStep df sigs = sigs ++ [s]) ∧
      ∃ t, sigs ++ t = signalStep df sigs := by
  intro df sigs
  have h : signalStep df sigs = sigs ∨ ∃ s, signalStep df sigs = sigs ++ [s] := by
    unfold signalStep
    split
    · split
      · left; rfl
      · split
        · left; rfl
        · split
          · left; rfl
          · split
            · split
              · right; exact ⟨_, rfl⟩
              · left; rfl
            · split
              · split
                · right; exact ⟨_, rfl⟩
                · left; rfl
              · left; rfl
    · left; rfl
  refine ⟨h, ?_⟩
  rcases h with h | ⟨s, h⟩
  · exact ⟨[], by rw [h, List.append_nil]⟩
  · exact ⟨[s], h.symm⟩

/- ================= C2 ================= -/

lemma candidate_time (df : List Enriched) (s : Signal) (h : candidate df = some s) :
    ∃ last, df.get? (df.length - 1) = some last ∧ s.time = last.time := by
  unfold candidate at h
  split at h
  · split at h
    · exact absurd h (by simp)
    · split at h
      · exact absurd h (by simp)
      · split at h
        · exact absurd h (by simp)
        · split at h
          · exact ⟨_, by assumption, by injection h with h2; rw [← h2]; rfl⟩
          · split at h
            · exact ⟨_, by assumption, by injection h with h2; rw [← h2]; rfl⟩
            · exact absurd h (by simp)
  · exact absurd h (by simp)

lemma signalStep_eq_candidate (df : List Enriched) (sigs : List Signal) :
    signalStep df sigs =
      match candidate df with
      | none => sigs
      | some s => if dedupOK sigs s.time then sigs ++ [s] else sigs := by
  unfold signalStep
  split
  next hlen =>
    split
    next heq =>
      simp only [candidate, if_pos hlen, heq]
    next last heq =>
      split
      next hatr =>
        simp only [candidate, if_pos hlen, heq, hatr]
      next a hatr =>
        split
        next hprev =>
          simp only [candidate, if_pos hlen, heq, hatr, hprev]
        next prev hprev =>
          split
          next hbuy =>
            simp only [candidate, if_pos hlen, heq, hatr, hprev, if_pos hbuy]
            rfl
          next hnbuy =>
            split
            next hsell =>
              simp only [candidate, if_pos hlen, heq, hatr, hprev, if_neg hnbuy,
                if_pos hsell]
              rfl
            next hnsell =>
              simp only [candidate, if_pos hlen, heq, hatr, hprev, if_neg hnbuy,
                if_neg hnsell]
  next hlen => simp [candidate, if_neg hlen]

lemma dedupOK_concat (sigs : List Signal) (s : Signal) :
    dedupOK (sigs ++ [s]) s.time = false := by
  simp [dedupOK, List.getLast?_concat]

/-- C2 (counterexample): three passes — a crossing at time 1, a crossing at
time 2, then the time-1 series again — leave the log with times `[1, 2, 1]`:
a reachable state in which two non-adjacent entries share the same `time`,
because the dedup check only consults the last entry. -/
theorem c2_counterexample :
    (runOps [] opsC2).map Signal.time = [1, 2, 1] ∧
    ¬ List.Pairwise (fun s t => s.time ≠ t.time) (runOps [] opsC2) := by
  constructor <;> decide

lemma chain_signalStep (df : List Enriched) (sigs : List Signal)
    (h : List.Chain' (fun s t => s.time ≠ t.time) sigs) :
    List.Chain' (fun s t => s.time ≠ t.time) (signalStep df sigs) := by
  rw [signalStep_eq_candidate]
  cases hc : candidate df with
  | none => exact h
  | some s =>
    by_cases hd : dedupOK sigs s.time
    · simp only [if_pos hd]
      rw [List.chain'_append]
      refine ⟨h, List.chain'_singleton _, fun x hx y hy => ?_⟩
      rw [Option.mem_def] at hx
      simp only [List.head?_cons, Option.mem_def, Option.some.injEq] at hy
      subst hy
      unfold dedupOK at hd
      rw [hx] at hd
      simpa using hd
    · simp only [if_neg hd]
      exact h

lemma chain_runOps (ops : List Op) :
    ∀ sigs : List Signal, List.Chain' (fun s t => s.time ≠ t.time) sigs →
      List.Chain' (fun s t => s.time ≠ t.time) (runOps sigs ops) := by
  induction ops with
  | nil => intro sigs h; exact h
  | cons op tl ih =>
    intro sigs h
    show List.Chain' _ (List.foldl applyOp (applyOp sigs op) tl)
    cases op with
    | pass df => exact ih _ (chain_signalStep df sigs h)
    | clear => exact ih _ List.chain'_nil

/-- C2 (amended): the dedup key only protects against repeating the most
recent entry — any reachable log state has pairwise-distinct times only on
*consecutive* entries, and running the detection pass twice on an unchanged
series leaves the log exactly as after the first pass. Distinctness of
non-adjacent times does not hold (see the counterexample). -/
theorem c2_dedup_amended :
    (∀ (df : List Enriched) (sigs : List Signal),
      signalStep df (signalStep df sigs) = signalStep df sigs) ∧
    (∀ ops : List Op,
      List.Chain' (fun s t => s.time ≠ t.time) (runOps [] ops)) := by
  constructor
  · intro df sigs
    rw [signalStep_eq_candidate df sigs, signalStep_eq_candidate df]
    cases hc : candidate df with
    | none => rfl
    | some s =>
      by_cases hd : dedupOK sigs s.time
      · simp only [if_pos hd]
        rw [dedupOK_concat]
        simp
      · simp only [if_neg hd]
  · exact fun ops => chain_runOps ops [] List.chain'_nil

/- ================= C7 ================= -/

/-- C7 (confirmed): when the fetch raises (all mirrors exhausted), the refresh
cycle yields the error — no enrichment and no signal evaluation happen — and
the session's signal log is left exactly unchanged; the mirror loop raises
precisely when every attempt fails. -/
theorem c7_fetch_failure_no_mutation :
    (∀ (e : String) (sigs : List Signal),
      refresh (FetchResult.err e) sigs = Except.error e ∧
      refreshSignals (FetchResult.err e) sigs = sigs) ∧
    (∀ (rs : List (Except String (List Candle))) (le : Option String),
      (∀ r ∈ rs, ∃ m, r = Except.error m) →
      ∃ m, fetchFromMirrors rs le = FetchResult.err m) := by
  constructor
  · intro e sigs
    exact ⟨rfl, rfl⟩
  · intro rs
    induction rs with
    | nil => intro le _; exact ⟨_, rfl⟩
    | cons r tl ih =>
      intro le h
      obtain ⟨m, rfl⟩ := h r (List.mem_cons_self _ _)
      exact ih (some m) (fun x hx => h x (List.mem_cons_of_mem _ hx))

/-- C7 (witness): an errored fetch leaves a concrete log unchanged, and a
mirror list of one failing attempt raises. -/
theorem c7_witness :
    refreshSignals (FetchResult.err "boom") [sigA] = [sigA] ∧
    ∃ m, fetchFromMirrors [Except.error "x"] none = FetchResult.err m :=
  ⟨(c7_fetch_failure_no_mutation.1 "boom" [sigA]).2,
   c7_fetch_failure_no_mutation.2 [Except.error "x"] none
     (fun r hr => ⟨"x", by simpa using hr⟩)⟩
